import Mathlib

/-!
Verification of the NeoForceScheme projection engine
(`neo_force_scheme/neo_force_scheme.py`).

The development shallowly embeds the parts of the source that the
specification talks about:

* the convergence loop of `NeoForceScheme._transform` (sweep counting,
  learning-rate schedule, tolerance-based early stop, returned error);
* the pre-loop section of `NeoForceScheme.transform` (random draws,
  fixed-column writes, the dimensionality check, and the `index`
  variable that is passed to `_transform`);
* the post-loop translation normalization of `NeoForceScheme.transform`;
* the attribute-level behaviour of `score`, `save`, `load` and `_fit`;
* the condensed distance matrix layout and the sample-count recovery
  formula `int(sqrt(2 * total + 1))`.

Machine floats are modelled by rationals (`ℚ`); `math.inf`, used only as
the initial previous-error sentinel, is modelled by `Option ℚ` with
`none` standing for infinity.  Python attribute lookup on an attribute
that was never assigned raises `AttributeError`; attributes are
therefore modelled as `Option`-valued fields.
-/

/-- Result of the optimization loop of `NeoForceScheme._transform`
(lines 158-177): how many calls to the iteration engine were executed,
the final value of the `error` variable (`none` models the initial
`math.inf`), and whether the loop exited through the tolerance `break`. -/
structure LoopResult where
  sweeps : Nat
  err : Option ℚ
  converged : Bool
  deriving DecidableEq, Repr

/-- The `break` test of `_transform` line 171:
`math.fabs(new_error - error) < self.tolerance`.  While `error` still
holds its initial `math.inf` (modelled by `none`) the absolute
difference is infinite, hence never below a (finite) tolerance. -/
def convBreak (prev : Option ℚ) (newError tol : ℚ) : Bool :=
  match prev with
  | none => false
  | some e => decide (|newError - e| < tol)

/-- One step of the `for k in range(self.max_it)` loop of `_transform`,
with `fuel` remaining iterations, current sweep index `k` and current
value `prev` of the `error` variable.  The sweep error produced by the
iteration engine at sweep `k` is abstracted as `errF k` (the engine
itself lives in `engines/neo_force_scheme_cpu`; its per-sweep result is
a deterministic function of which sweeps ran before, hence of `k`).
On `break` the `error` variable is returned unchanged; otherwise
`error = new_error` is executed and the loop continues. -/
def loopFrom (errF : Nat → ℚ) (tol : ℚ) : Nat → Nat → Option ℚ → LoopResult
  | 0, _, prev => ⟨0, prev, false⟩
  | fuel + 1, k, prev =>
    if convBreak prev (errF k) tol then
      ⟨1, prev, true⟩
    else
      let r := loopFrom errF tol fuel (k + 1) (some (errF k))
      ⟨r.sweeps + 1, r.err, r.converged⟩

/-- The whole optimization loop of `_transform`: starts at sweep `0`
with `error = math.inf` and at most `max_it` iterations. -/
def transformLoop (errF : Nat → ℚ) (tol : ℚ) (maxIt : Nat) : LoopResult :=
  loopFrom errF tol maxIt 0 none

/-- Value of the `error` variable at the start of sweep `k`, assuming no
earlier `break`: `math.inf` (`none`) at sweep `0`, and the previous
sweep's error afterwards. -/
def prevAt (errF : Nat → ℚ) (k : Nat) : Option ℚ :=
  match k with
  | 0 => none
  | j + 1 => some (errF j)

/-- Whether the tolerance test fires at sweep `k` (assuming no earlier
`break`): compares the new error of sweep `k` with the error recorded
from sweep `k - 1`. -/
def fires (errF : Nat → ℚ) (tol : ℚ) (k : Nat) : Bool :=
  convBreak (prevAt errF k) (errF k) tol

/-- Effects of `NeoForceScheme.transform` (lines 205-234) up to and
including the dimensionality check, for a call with target
dimensionality `nDim`:

* `rngDraws` — how many times the global NumPy random generator is
  consumed before the check: once by `np.random.random` when the
  starting projection mode is `RANDOM` (`modeRandom = true`; with mode
  `None` the caller-supplied `Xd` is used as is), plus once by
  `np.random.permutation(size)` (line 226), which runs unconditionally;
* `suppliedXdMutated` — whether the caller-supplied projection array is
  written in place: this happens in the fixed-column loop (lines
  230-231) when fixed-axis values are configured, the array was supplied
  by the caller (mode `None`), and it is non-empty;
* `dimRejected` — whether `NotImplementedError` is raised by the
  `n_dimension > 3` check (line 233), which runs only after the above.
-/
structure TransformEffects where
  rngDraws : Nat
  suppliedXdMutated : Bool
  dimRejected : Bool
  deriving DecidableEq, Repr

/-- The pre-loop section of `transform`, recording its side effects in
program order: random draws and fixed-column writes happen before the
dimensionality check. -/
def transformPreamble (nDim : Nat) (modeRandom fixedCol : Bool)
    (xdLen : Nat) : TransformEffects :=
  { rngDraws := (if modeRandom then 1 else 0) + 1
    suppliedXdMutated := fixedCol && !modeRandom && decide (0 < xdLen)
    dimRejected := decide (3 < nDim) }

/-- The value bound to the Python variable `index` at the moment
`transform` calls `_transform` (line 240).  Line 226 binds `index` to a
permutation of `[0, size)`; but when fixed-axis values are configured,
the loop `for index in range(len(Xd))` (line 230) rebinds the same
variable, so after a non-empty loop `index` is the integer
`len(Xd) - 1` instead of the permutation. -/
inductive IterationOrderArg where
  | permutation (p : List Nat)
  | loopCounter (k : Nat)
  deriving DecidableEq, Repr

/-- Which `index` value `transform` passes on to `_transform`, as a
function of the permutation drawn at line 226, whether fixed-axis
values are configured, and `len(Xd)`. -/
def indexArgPassed (perm : List Nat) (fixedColConfigured : Bool)
    (xdLen : Nat) : IterationOrderArg :=
  if fixedColConfigured then
    if 0 < xdLen then .loopCounter (xdLen - 1) else .permutation perm
  else .permutation perm

/-- Outcome of `NeoForceScheme.score` (lines 334-353) at the attribute
level: either a Python `AttributeError` (reading `self.embedding_` on an
estimator that never assigned it), the explicit `Exception` of lines
350-352, or a stress computation; `stressOf dm` records which distance
matrix is actually handed to `kruskal_stress`. -/
inductive ScoreOutcome where
  | attributeError
  | missingMatrixError
  | stressOf (dm : List ℚ)
  deriving DecidableEq, Repr

/-- The control flow of `score`: `fitted` is `self.embedding_` (present
iff `_fit` or `load` ran), `supplied` the optional `distance_matrix`
argument.  With no supplied matrix, line 349 reads `self.embedding_`
(raising `AttributeError` when unfitted).  The final line always calls
`kruskal_stress(self.embedding_, projection, self.metric)` — reading
`self.embedding_` again and ignoring the supplied matrix. -/
def scoreRun (fitted supplied : Option (List ℚ)) : ScoreOutcome :=
  match supplied with
  | none =>
    match fitted with
    | none => .attributeError
    | some f => .stressOf f
  | some _ =>
    match fitted with
    | none => .attributeError
    | some f => .stressOf f

/-- Persistent attributes of a `NeoForceScheme` estimator that the
persistence operations touch: `self.embedding_` (the condensed distance
matrix) and `self.embedding_size_` (the logical sample count).  A field
holds `none` while the Python attribute was never assigned. -/
structure ModelState where
  embedding : Option (List ℚ)
  embeddingSize : Option Nat
  deriving DecidableEq, Repr

/-- A freshly constructed estimator: neither attribute assigned. -/
def initialModel : ModelState := ⟨none, none⟩

/-- `NeoForceScheme._fit` (lines 154-156): assigns `self.embedding_`
only; `self.embedding_size_` is left untouched. -/
def fitModel (dm : List ℚ) (s : ModelState) : ModelState :=
  { s with embedding := some dm }

/-- Outcome of `NeoForceScheme.save` (lines 142-146): the payload handed
to `pickle_save_matrix`, or the `AttributeError` raised when one of the
two attributes it reads was never assigned. -/
inductive SaveResult where
  | attributeError
  | saved (dm : List ℚ) (n : Nat)
  deriving DecidableEq, Repr

/-- `save` evaluates `self.embedding_` and `self.embedding_size_` as
arguments of `pickle_save_matrix`; either lookup fails with
`AttributeError` when unassigned. -/
def saveModel (s : ModelState) : SaveResult :=
  match s.embedding, s.embeddingSize with
  | some dm, some n => .saved dm n
  | _, _ => .attributeError

/-- `NeoForceScheme.load` (lines 148-152): assigns both attributes from
the stored payload. -/
def loadModel (dm : List ℚ) (n : Nat) (_s : ModelState) : ModelState :=
  ⟨some dm, some n⟩

/-- C4: in every `transform` call with fixed-axis values configured on a
non-empty projection (here: 2 samples, permutation `[1, 0]`), the value
passed as the iteration order to `_transform` is the integer loop
counter `len(Xd) - 1 = 1` left over from the fixed-column loop, not the
permutation computed at the start of the run. -/
theorem c4_index_shadowed_by_fixed_column_loop :
    indexArgPassed [1, 0] true 2 = .loopCounter 1 ∧
      indexArgPassed [1, 0] true 2 ≠ .permutation [1, 0] := by
  decide

/-- C5: `score` on a never-fitted estimator with an explicitly supplied
distance matrix `[5]` raises `AttributeError` instead of succeeding, and
on a fitted estimator (fitted matrix `[3]`) with supplied matrix `[5]`
the stress is computed from the fitted matrix `[3]`, ignoring the
supplied one. -/
theorem c5_supplied_matrix_ignored :
    scoreRun none (some [5]) = .attributeError ∧
      scoreRun (some [3]) (some [5]) = .stressOf [3] ∧
      ScoreOutcome.stressOf [(3 : ℚ)] ≠ .stressOf [5] := by
  decide

/-- C9: on an estimator fitted in the ordinary way (`_fit` assigns only
`self.embedding_`), `save` raises `AttributeError` because
`self.embedding_size_` was never assigned, so the save-then-load round
trip cannot even start. -/
theorem c9_save_fails_after_fit :
    saveModel (fitModel [1, 2, 3] initialModel) = .attributeError := by
  decide

/-- The loop never executes more sweeps than it has remaining iterations. -/
theorem loopFrom_sweeps_le (errF : Nat → ℚ) (tol : ℚ) :
    ∀ (fuel k : Nat) (prev : Option ℚ),
      (loopFrom errF tol fuel k prev).sweeps ≤ fuel := by
  intro fuel
  induction fuel with
  | zero => intro k prev; simp [loopFrom]
  | succ n ih =>
    intro k prev
    rcases h : convBreak prev (errF k) tol with hf | ht
    · simp only [loopFrom, h, Bool.false_eq_true, if_false]
      exact Nat.succ_le_succ (ih (k + 1) (some (errF k)))
    · simp [loopFrom, h]

/-- With at least one remaining iteration the loop executes at least one
sweep (the body runs before any `break` can be taken). -/
theorem loopFrom_sweeps_pos (errF : Nat → ℚ) (tol : ℚ) (fuel k : Nat)
    (prev : Option ℚ) (hfuel : 0 < fuel) :
    1 ≤ (loopFrom errF tol fuel k prev).sweeps := by
  rcases fuel with _ | n
  · omega
  · rcases h : convBreak prev (errF k) tol with hf | ht
    · simp only [loopFrom, h, Bool.false_eq_true, if_false]
      omega
    · simp [loopFrom, h]

/-- If the tolerance test fires at no sweep index in `[k0, k0 + fuel)`,
the loop runs to exhaustion: `fuel` sweeps, no `break`, and the `error`
variable ends up holding the last sweep's error. -/
theorem loopFrom_no_fire (errF : Nat → ℚ) (tol : ℚ) :
    ∀ (fuel k0 : Nat),
      (∀ j, k0 ≤ j → j < k0 + fuel → fires errF tol j = false) →
      loopFrom errF tol fuel k0 (prevAt errF k0) =
        ⟨fuel, prevAt errF (k0 + fuel), false⟩ := by
  intro fuel
  induction fuel with
  | zero => intro k0 _; simp [loopFrom]
  | succ n ih =>
    intro k0 h
    have hk0 : convBreak (prevAt errF k0) (errF k0) tol = false :=
      h k0 (Nat.le_refl k0) (by omega)
    have hrec : loopFrom errF tol n (k0 + 1) (prevAt errF (k0 + 1)) =
        ⟨n, prevAt errF (k0 + 1 + n), false⟩ :=
      ih (k0 + 1) (fun j h1 h2 => h j (by omega) (by omega))
    have hprev : prevAt errF (k0 + 1) = some (errF k0) := rfl
    rw [hprev] at hrec
    simp only [loopFrom, hk0, Bool.false_eq_true, if_false, hrec]
    have : k0 + 1 + n = k0 + (n + 1) := by omega
    rw [this]

/-- If the tolerance test first fires at sweep `k` (within the remaining
`fuel`), the loop breaks there: it executes sweeps `k0 .. k` only, the
`converged` flag is set, and the `error` variable still holds the error
of sweep `k - 1` — the new error of sweep `k` is discarded. -/
theorem loopFrom_fire (errF : Nat → ℚ) (tol : ℚ) :
    ∀ (fuel k0 k : Nat), k0 ≤ k → k < k0 + fuel →
      fires errF tol k = true →
      (∀ j, k0 ≤ j → j < k → fires errF tol j = false) →
      loopFrom errF tol fuel k0 (prevAt errF k0) =
        ⟨k + 1 - k0, prevAt errF k, true⟩ := by
  intro fuel
  induction fuel with
  | zero => intro k0 k h1 h2 _ _; omega
  | succ n ih =>
    intro k0 k hk0k hklt hfire hmin
    by_cases hE : k0 = k
    · subst hE
      have hk0 : convBreak (prevAt errF k0) (errF k0) tol = true := hfire
      simp [loopFrom, hk0]
    · have hk0 : convBreak (prevAt errF k0) (errF k0) tol = false :=
        hmin k0 (Nat.le_refl k0) (by omega)
      have hrec : loopFrom errF tol n (k0 + 1) (prevAt errF (k0 + 1)) =
          ⟨k + 1 - (k0 + 1), prevAt errF k, true⟩ :=
        ih (k0 + 1) k (by omega) (by omega) hfire
          (fun j h1 h2 => hmin j (by omega) h2)
      have hprev : prevAt errF (k0 + 1) = some (errF k0) := rfl
      rw [hprev] at hrec
      simp only [loopFrom, hk0, Bool.false_eq_true, if_false, hrec]
      have : k + 1 - (k0 + 1) + 1 = k + 1 - k0 := by omega
      rw [this]


/-- C1: for every run with `max_it > 0` the optimization loop executes
at most `max_it` sweeps; and whenever the absolute difference between
the new sweep error and the previous sweep error first drops below the
tolerance at some sweep `k < max_it`, the loop breaks right there: it
reports convergence, executes exactly `k + 1` sweeps, and in particular
stops strictly before exhausting `max_it` whenever `k + 1 < max_it`. -/
theorem c1_loop_bounded_and_stops_on_tolerance (errF : Nat → ℚ)
    (tol : ℚ) (maxIt k : Nat) (_hpos : 0 < maxIt) :
    (transformLoop errF tol maxIt).sweeps ≤ maxIt ∧
      (k < maxIt → fires errF tol k = true →
        (∀ j, j < k → fires errF tol j = false) →
        (transformLoop errF tol maxIt).converged = true ∧
          (transformLoop errF tol maxIt).sweeps = k + 1 ∧
          (k + 1 < maxIt →
            (transformLoop errF tol maxIt).sweeps < maxIt)) := by
  constructor
  · exact loopFrom_sweeps_le errF tol maxIt 0 none
  · intro hk hfire hmin
    have hrun : transformLoop errF tol maxIt =
        ⟨k + 1 - 0, prevAt errF k, true⟩ :=
      loopFrom_fire errF tol maxIt 0 k (Nat.zero_le k) (by omega) hfire
        (fun j _ h2 => hmin j h2)
    refine ⟨?_, ?_, ?_⟩
    · rw [hrun]
    · rw [hrun]
      show k + 1 - 0 = k + 1
      omega
    · intro h
      rw [hrun]
      show k + 1 - 0 < maxIt
      omega

/-- Concrete error sequence for the C1 witness: sweep errors
`10, 21/2, 21/2, ...`, whose first delta is `1/2`. -/
def errC1 : Nat → ℚ := fun k => if k = 0 then 10 else 21 / 2

/-- C1 witness: with tolerance `1`, `max_it = 4` and the error sequence
`errC1`, the tolerance test first fires at sweep `1`, the loop runs
exactly `2` sweeps, converges, and stops before exhausting `max_it`. -/
theorem c1_witness :
    (transformLoop errC1 1 4).sweeps ≤ 4 ∧
      (transformLoop errC1 1 4).converged = true ∧
      (transformLoop errC1 1 4).sweeps = 2 ∧
      (transformLoop errC1 1 4).sweeps < 4 := by
  have hf : fires errC1 1 1 = true :=
    decide_eq_true (by rw [abs_sub_lt_iff]; norm_num : |(21 : ℚ) / 2 - 10| < 1)
  have hmin : ∀ j, j < 1 → fires errC1 1 j = false := by
    intro j hj
    obtain rfl : j = 0 := by omega
    rfl
  have h := c1_loop_bounded_and_stops_on_tolerance errC1 1 4 1 (by omega)
  have h2 := h.2 (by omega) hf hmin
  exact ⟨h.1, h2.1, h2.2.1, h2.2.2 (by omega)⟩

/-- Concrete error sequence for the C7 counterexample: sweep `0` emits
error `10`, every later sweep emits `21/2`. -/
def errC7 : Nat → ℚ := fun k => if k = 0 then 10 else 21 / 2

/-- C7 counterexample: with tolerance `1` and `max_it = 3` the loop
converges after `2` sweeps; the last executed sweep (index `1`) emitted
error `21/2`, but the loop returns the previous error `10`, so the
returned error is not the error emitted by the last executed sweep. -/
theorem c7_counterexample :
    (transformLoop errC7 1 3).converged = true ∧
      (transformLoop errC7 1 3).sweeps = 2 ∧
      errC7 1 = 21 / 2 ∧
      (transformLoop errC7 1 3).err = some 10 ∧
      ((10 : ℚ) = 21 / 2 → False) := by
  have hf : fires errC7 1 1 = true :=
    decide_eq_true (by rw [abs_sub_lt_iff]; norm_num : |(21 : ℚ) / 2 - 10| < 1)
  have hmin : ∀ j, 0 ≤ j → j < 1 → fires errC7 1 j = false := by
    intro j _ hj
    obtain rfl : j = 0 := by omega
    rfl
  have hrun : transformLoop errC7 1 3 = ⟨1 + 1 - 0, prevAt errC7 1, true⟩ :=
    loopFrom_fire errC7 1 3 0 1 (by omega) (by omega) hf hmin
  refine ⟨?_, ?_, rfl, ?_, by norm_num⟩
  · rw [hrun]
  · rw [hrun]
  · rw [hrun]
    rfl

/-- C7 amended: both terminal paths return the current projection with
an error value, but which one differs: on exhaustion (the tolerance test
fires at no sweep) the returned error is the last sweep's error; on
convergence at sweep `k` the returned error is the error of sweep
`k - 1` — the converging sweep's new error is discarded. -/
theorem c7_amended_returned_error (errF : Nat → ℚ) (tol : ℚ)
    (maxIt k : Nat) (hpos : 0 < maxIt) :
    ((∀ j, j < maxIt → fires errF tol j = false) →
      (transformLoop errF tol maxIt).converged = false ∧
        (transformLoop errF tol maxIt).err = some (errF (maxIt - 1))) ∧
      (k < maxIt → fires errF tol k = true →
        (∀ j, j < k → fires errF tol j = false) →
        (transformLoop errF tol maxIt).converged = true ∧
          (transformLoop errF tol maxIt).err = prevAt errF k) := by
  constructor
  · intro hnone
    have hrun : transformLoop errF tol maxIt =
        ⟨maxIt, prevAt errF (0 + maxIt), false⟩ :=
      loopFrom_no_fire errF tol maxIt 0 (fun j _ h2 => hnone j (by omega))
    rw [Nat.zero_add] at hrun
    rcases maxIt with _ | m
    · omega
    · rw [hrun]
      exact ⟨rfl, rfl⟩
  · intro hk hfire hmin
    have hrun : transformLoop errF tol maxIt =
        ⟨k + 1 - 0, prevAt errF k, true⟩ :=
      loopFrom_fire errF tol maxIt 0 k (Nat.zero_le k) (by omega) hfire
        (fun j _ h2 => hmin j h2)
    rw [hrun]
    exact ⟨rfl, rfl⟩

/-- Error sequence with deltas of size `1` used in the C7 witness for
the exhaustion branch: errors `0, 1, 2, 2, ...`. -/
def errGap : Nat → ℚ := fun k => if k = 0 then 0 else if k = 1 then 1 else 2

/-- C7 witness: the amended statement at two concrete runs — an
exhaustion run (`errGap`, tolerance `1/2`, `max_it = 2`) returning the
last sweep's error, and a convergence run (`errC7`, tolerance `1`,
`max_it = 3`) returning the previous sweep's error. -/
theorem c7_witness :
    ((transformLoop errGap (1 / 2) 2).converged = false ∧
      (transformLoop errGap (1 / 2) 2).err = some (errGap 1)) ∧
      ((transformLoop errC7 1 3).converged = true ∧
        (transformLoop errC7 1 3).err = prevAt errC7 1) := by
  have hnf : ∀ j, j < 2 → fires errGap (1 / 2) j = false := by
    intro j hj
    interval_cases j
    · rfl
    · exact decide_eq_false (by rw [abs_sub_lt_iff]; norm_num : ¬|(1 : ℚ) - 0| < 1 / 2)
  have hf : fires errC7 1 1 = true :=
    decide_eq_true (by rw [abs_sub_lt_iff]; norm_num : |(21 : ℚ) / 2 - 10| < 1)
  have hmin : ∀ j, j < 1 → fires errC7 1 j = false := by
    intro j hj
    obtain rfl : j = 0 := by omega
    rfl
  constructor
  · exact (c7_amended_returned_error errGap (1 / 2) 2 0 (by omega)).1 hnf
  · exact (c7_amended_returned_error errC7 1 3 1 (by omega)).2
      (by omega) hf hmin

/-- C10: the tolerance test can never fire on the first sweep, because
the previous error starts out as `math.inf` (`none`), whose distance to
any finite new error is infinite; consequently every run with
`max_it ≥ 2` executes at least two sweeps before any convergence can be
declared. -/
theorem c10_no_first_sweep_convergence (errF : Nat → ℚ) (tol : ℚ)
    (maxIt : Nat) (h2 : 2 ≤ maxIt) :
    convBreak none (errF 0) tol = false ∧
      2 ≤ (transformLoop errF tol maxIt).sweeps := by
  refine ⟨rfl, ?_⟩
  obtain ⟨m, rfl⟩ : ∃ m, maxIt = m + 2 := ⟨maxIt - 2, by omega⟩
  have hstep : (transformLoop errF tol (m + 2)).sweeps =
      (loopFrom errF tol (m + 1) 1 (some (errF 0))).sweeps + 1 := rfl
  have hpos : 1 ≤ (loopFrom errF tol (m + 1) 1 (some (errF 0))).sweeps :=
    loopFrom_sweeps_pos errF tol (m + 1) 1 (some (errF 0)) (by omega)
  omega

/-- C10 witness: with the constant error sequence, tolerance `1` and
`max_it = 2`, the first-sweep test indeed does not fire and the run
executes at least two sweeps. -/
theorem c10_witness :
    2 ≤ 2 ∧
      (convBreak none ((fun _ => (0 : ℚ)) 0) 1 = false ∧
        2 ≤ (transformLoop (fun _ => (0 : ℚ)) 1 2).sweeps) :=
  ⟨by omega, c10_no_first_sweep_convergence (fun _ => (0 : ℚ)) 1 2 (by omega)⟩

/-- C6 counterexample: a `transform` call with random initialization and
target dimensionality `4` does raise the dimensionality error, but only
after consuming two draws from the global random generator (the random
initial projection and the visit-order permutation), so the
random-generator state is not left unchanged by the failed call. -/
theorem c6_counterexample :
    (transformPreamble 4 true false 0).dimRejected = true ∧
      (transformPreamble 4 true false 0).rngDraws = 2 ∧
      (2 : Nat) ≠ 0 := by
  decide

/-- C6 amended: every `transform` call with target dimensionality above
`3` fails with the dimensionality error, but the check runs only after
the side effects of the preamble: the random generator has been advanced
at least once (the permutation draw is unconditional), and the
caller-supplied projection array has been written exactly when fixed-axis
values are configured for a supplied non-empty array.  -/
theorem c6_amended_dim_error_after_side_effects (nDim : Nat)
    (modeRandom fixedCol : Bool) (xdLen : Nat) (h : 3 < nDim) :
    (transformPreamble nDim modeRandom fixedCol xdLen).dimRejected = true ∧
      1 ≤ (transformPreamble nDim modeRandom fixedCol xdLen).rngDraws ∧
      (transformPreamble nDim modeRandom fixedCol xdLen).suppliedXdMutated =
        (fixedCol && !modeRandom && decide (0 < xdLen)) := by
  refine ⟨?_, ?_, rfl⟩
  · exact decide_eq_true h
  · show (if modeRandom then 1 else 0) + 1 ≥ 1
    omega

/-- C6 witness: a caller-supplied 3-row projection with fixed-axis
values and target dimensionality `4` is rejected, with the generator
advanced and the supplied array mutated. -/
theorem c6_witness :
    3 < 4 ∧
      ((transformPreamble 4 false true 3).dimRejected = true ∧
        1 ≤ (transformPreamble 4 false true 3).rngDraws ∧
        (transformPreamble 4 false true 3).suppliedXdMutated =
          (true && !false && decide (0 < 3))) :=
  ⟨by omega, c6_amended_dim_error_after_side_effects 4 false true 3 (by omega)⟩

/-- The learning rate computed by `_transform` line 162 for sweep index
`k`: `self.learning_rate0 * math.pow((1 - k / self.max_it), self.decay)`.
The float power with real exponent is modelled by the real power
function. -/
noncomputable def learningRate (lr0 decay : ℝ) (maxIt k : Nat) : ℝ :=
  lr0 * (1 - (k : ℝ) / (maxIt : ℝ)) ^ decay

/-- C2: for every sweep index `k < max_it` the learning rate equals
`learning_rate0 * (1 - k / max_it) ^ decay`; at `k = 0` it equals
`learning_rate0`; and for a non-negative decay exponent (and
non-negative `learning_rate0`) the schedule is monotonically
non-increasing over the sweep indices of the run. -/
theorem c2_learning_rate_schedule (lr0 decay : ℝ) (maxIt : Nat)
    (hlr : 0 ≤ lr0) (hdecay : 0 ≤ decay) (_hm : 0 < maxIt) :
    (∀ k : Nat, learningRate lr0 decay maxIt k =
        lr0 * (1 - (k : ℝ) / (maxIt : ℝ)) ^ decay) ∧
      learningRate lr0 decay maxIt 0 = lr0 ∧
      (∀ k j : Nat, k ≤ j → j < maxIt →
        learningRate lr0 decay maxIt j ≤ learningRate lr0 decay maxIt k) := by
  refine ⟨fun k => rfl, ?_, ?_⟩
  · unfold learningRate
    rw [Nat.cast_zero, zero_div, sub_zero, Real.one_rpow, mul_one]
  · intro k j hkj hj
    have hmpos : (0 : ℝ) < (maxIt : ℝ) := by
      exact_mod_cast _hm
    have hjle : (j : ℝ) / (maxIt : ℝ) ≤ 1 := by
      rw [div_le_one hmpos]
      exact_mod_cast Nat.le_of_lt hj
    have hbase0 : (0 : ℝ) ≤ 1 - (j : ℝ) / (maxIt : ℝ) := by linarith
    have hbasele : 1 - (j : ℝ) / (maxIt : ℝ) ≤ 1 - (k : ℝ) / (maxIt : ℝ) := by
      have : (k : ℝ) / (maxIt : ℝ) ≤ (j : ℝ) / (maxIt : ℝ) := by
        rw [div_le_div_iff_of_pos_right hmpos]
        exact_mod_cast hkj
      linarith
    have hpow : (1 - (j : ℝ) / (maxIt : ℝ)) ^ decay ≤
        (1 - (k : ℝ) / (maxIt : ℝ)) ^ decay :=
      Real.rpow_le_rpow hbase0 hbasele hdecay
    exact mul_le_mul_of_nonneg_left hpow hlr

/-- C2 witness: with `learning_rate0 = 1`, `decay = 2` and `max_it = 3`,
the sweep-`0` rate is `1` and the rate at sweep `2` is at most the rate
at sweep `1`. -/
theorem c2_witness :
    (0 : ℝ) ≤ 1 ∧ (0 : ℝ) ≤ 2 ∧ 0 < 3 ∧
      learningRate 1 2 3 0 = 1 ∧
      learningRate 1 2 3 2 ≤ learningRate 1 2 3 1 := by
  have h := c2_learning_rate_schedule 1 2 3 (by norm_num) (by norm_num)
    (by omega)
  exact ⟨by norm_num, by norm_num, by omega, h.2.1,
    h.2.2 1 2 (by omega) (by omega)⟩

/-- Python `min` over one column of the projection: the smallest value
of `row c` over the rows, seeded with the first row (the projection
passed to the post-processing of `transform` is non-empty in any real
run; the empty case defaults to `0` and is excluded by hypothesis in the
theorems below).  Rows are modelled as functions from column index to
coordinate. -/
def colMin (P : List (Nat → ℚ)) (c : Nat) : ℚ :=
  match P with
  | [] => 0
  | r :: rs => rs.foldl (fun m row => min m (row c)) (r c)

/-- The post-loop translation of `transform` (lines 242-256): for
`n_dimension = 2` subtract the column minima `min_x`, `min_y` (computed
before any write) from columns `0` and `1` of every row; for
`n_dimension = 3` likewise for columns `0`, `1`, `2`; all columns are
shifted, including the last one, which is the fixed column when
fixed-axis values are configured. -/
def postShift (d : Nat) (P : List (Nat → ℚ)) : List (Nat → ℚ) :=
  if d = 2 then
    P.map fun r c =>
      if c = 0 then r 0 - colMin P 0
      else if c = 1 then r 1 - colMin P 1
      else r c
  else if d = 3 then
    P.map fun r c =>
      if c = 0 then r 0 - colMin P 0
      else if c = 1 then r 1 - colMin P 1
      else if c = 2 then r 2 - colMin P 2
      else r c
  else P

/-- Unfolding of the two-dimensional branch of the post-loop shift. -/
theorem postShift_two (P : List (Nat → ℚ)) :
    postShift 2 P = P.map fun r c =>
      if c = 0 then r 0 - colMin P 0
      else if c = 1 then r 1 - colMin P 1
      else r c := rfl

/-- Unfolding of the three-dimensional branch of the post-loop shift. -/
theorem postShift_three (P : List (Nat → ℚ)) :
    postShift 3 P = P.map fun r c =>
      if c = 0 then r 0 - colMin P 0
      else if c = 1 then r 1 - colMin P 1
      else if c = 2 then r 2 - colMin P 2
      else r c := rfl

/-- Folding the running minimum over a column after subtracting the same
constant from every value subtracts that constant from the result. -/
theorem foldl_min_sub (c : Nat) (k : ℚ) (φ : (Nat → ℚ) → (Nat → ℚ))
    (hφ : ∀ r, φ r c = r c - k) :
    ∀ (rs : List (Nat → ℚ)) (a : ℚ),
      (rs.map φ).foldl (fun m row => min m (row c)) (a - k) =
        rs.foldl (fun m row => min m (row c)) a - k := by
  intro rs
  induction rs with
  | nil => intro a; rfl
  | cons r rs ih =>
    intro a
    simp only [List.map_cons, List.foldl_cons, hφ r]
    rw [min_sub_sub_right a (r c) k]
    exact ih (min a (r c))

/-- Subtracting a constant `k` from column `c` of every row shifts that
column's minimum by `k`. -/
theorem colMin_map_sub (P : List (Nat → ℚ)) (φ : (Nat → ℚ) → (Nat → ℚ))
    (c : Nat) (k : ℚ) (hφ : ∀ r, φ r c = r c - k) (hP : P ≠ []) :
    colMin (P.map φ) c = colMin P c - k := by
  rcases P with _ | ⟨r, rs⟩
  · exact absurd rfl hP
  · simp only [List.map_cons, colMin, hφ r]
    exact foldl_min_sub c k φ hφ rs (r c)

/-- Example projection after the optimization loop, with the fixed
column (the last of the two dimensions) pinned to the values `2` and
`4`: rows `(1, 2)` and `(3, 4)`. -/
def exP : List (Nat → ℚ) :=
  [fun c => if c = 0 then 1 else 2, fun c => if c = 0 then 3 else 4]

/-- C3 counterexample: on the two-row projection `exP` whose fixed
column (column `1`) is pinned to `2` and `4`, the post-loop shift of
`transform` rewrites row `0`'s fixed coordinate from its pinned value
`2` to `0`: the fixed column is not excluded from the translation and
does not retain its pinned values. -/
theorem c3_counterexample :
    (exP.getD 0 (fun _ => 0)) 1 = 2 ∧
      ((postShift 2 exP).getD 0 (fun _ => 0)) 1 = 0 ∧
      ((0 : ℚ) = 2 → False) := by
  have hmin : colMin exP 1 = 2 := by
    have h1 : colMin exP 1 = min 2 4 := by
      simp [colMin, exP]
    rw [h1, min_eq_left (by norm_num : (2 : ℚ) ≤ 4)]
  have hrow : ((postShift 2 exP).getD 0 (fun _ => 0)) 1 = 2 - colMin exP 1 := by
    rw [postShift_two]
    simp [exP]
  refine ⟨rfl, ?_, by norm_num⟩
  rw [hrow, hmin]
  norm_num

/-- C3 amended: after the post-loop translation the minimum coordinate
is exactly `0` along every active dimension — including the fixed
column, which is therefore shifted together with the rest and retains
its pinned values only when their minimum is already `0`. -/
theorem c3_amended_zero_min_on_all_columns (d c : Nat)
    (P : List (Nat → ℚ)) (hP : P ≠ []) (hd : d = 2 ∨ d = 3)
    (hc : c < d) : colMin (postShift d P) c = 0 := by
  rcases hd with rfl | rfl
  · have hc01 : c = 0 ∨ c = 1 := by omega
    rw [postShift_two]
    rcases hc01 with rfl | rfl
    · rw [colMin_map_sub P
        (fun r c =>
          if c = 0 then r 0 - colMin P 0
          else if c = 1 then r 1 - colMin P 1
          else r c) 0 (colMin P 0) (fun r => rfl) hP]
      ring
    · rw [colMin_map_sub P
        (fun r c =>
          if c = 0 then r 0 - colMin P 0
          else if c = 1 then r 1 - colMin P 1
          else r c) 1 (colMin P 1) (fun r => rfl) hP]
      ring
  · have hc012 : c = 0 ∨ c = 1 ∨ c = 2 := by omega
    rw [postShift_three]
    rcases hc012 with rfl | rfl | rfl
    · rw [colMin_map_sub P
        (fun r c =>
          if c = 0 then r 0 - colMin P 0
          else if c = 1 then r 1 - colMin P 1
          else if c = 2 then r 2 - colMin P 2
          else r c) 0 (colMin P 0) (fun r => rfl) hP]
      ring
    · rw [colMin_map_sub P
        (fun r c =>
          if c = 0 then r 0 - colMin P 0
          else if c = 1 then r 1 - colMin P 1
          else if c = 2 then r 2 - colMin P 2
          else r c) 1 (colMin P 1) (fun r => rfl) hP]
      ring
    · rw [colMin_map_sub P
        (fun r c =>
          if c = 0 then r 0 - colMin P 0
          else if c = 1 then r 1 - colMin P 1
          else if c = 2 then r 2 - colMin P 2
          else r c) 2 (colMin P 2) (fun r => rfl) hP]
      ring

/-- C3 witness: on the concrete projection `exP`, the shifted column `1`
(the fixed column) has minimum exactly `0`. -/
theorem c3_witness :
    exP ≠ [] ∧ ((2 : Nat) = 2 ∨ (2 : Nat) = 3) ∧ 1 < 2 ∧
      colMin (postShift 2 exP) 1 = 0 :=
  ⟨by simp [exP], Or.inl rfl, by omega,
    c3_amended_zero_min_on_all_columns 2 1 exP (by simp [exP])
      (Or.inl rfl) (by omega)⟩

/-- Modelled from the spec: `create_triangular_distance_matrix` from
`engines/neo_force_scheme_cpu` (the engine module is not part of the
given source).  Per the spec's data model, the condensed Distance Matrix
is "a 1-D store of length `n(n-1)/2` holding the upper-triangular
pairwise distances (diagonal is implicitly zero)": entry for every pair
`(i, j)` with `i < j`, row-major. -/
def condensedMatrixSpec (n : Nat) (dist : Nat → Nat → ℚ) : List ℚ :=
  (List.range n).flatMap fun i =>
    ((List.range n).drop (i + 1)).map fun j => dist i j

/-- The diagonal-inclusive condensed layout: one entry for every pair
`(i, j)` with `i ≤ j`, row-major — `n(n+1)/2` entries.  This is the
layout the sample-count recovery formula of `transform` (line 207) is
exact for. -/
def condensedMatrixDiag (n : Nat) (dist : Nat → Nat → ℚ) : List ℚ :=
  (List.range n).flatMap fun i =>
    ((List.range n).drop i).map fun j => dist i j

/-- The sample-count recovery of `transform` line 207:
`size = int(math.sqrt(2 * total + 1))` where `total` is the length of
the stored condensed matrix; `int` truncates, i.e. floor for
non-negative arguments, so this is the integer square root. -/
def recoverSize (total : Nat) : Nat :=
  Nat.sqrt (2 * total + 1)

/-- Sum of a function mapped over `List.range` equals the `Finset.range`
sum. -/
theorem listRangeMapSum (f : Nat → Nat) (n : Nat) :
    ((List.range n).map f).sum = ∑ i in Finset.range n, f i := by
  induction n with
  | zero => simp
  | succ m ih => simp [List.range_succ, Finset.sum_range_succ, ih]

/-- Triangular-number step: `n(n-1)/2 + n = n(n+1)/2`. -/
theorem triangle_step (n : Nat) : n * (n - 1) / 2 + n = n * (n + 1) / 2 := by
  rcases n with _ | m
  · rfl
  · rw [Nat.add_sub_cancel]
    rw [show (m + 1) * (m + 1 + 1) = (m + 1) * m + 2 * (m + 1) by ring]
    rw [Nat.add_mul_div_left _ _ (by norm_num : 0 < 2)]

/-- The spec-modelled condensed matrix indeed has `n(n-1)/2` entries. -/
theorem condensedMatrixSpec_length (n : Nat) (dist : Nat → Nat → ℚ) :
    (condensedMatrixSpec n dist).length = n * (n - 1) / 2 := by
  rw [condensedMatrixSpec, List.length_flatMap]
  have hmap : List.map
      (List.length ∘ fun i => ((List.range n).drop (i + 1)).map fun j => dist i j)
      (List.range n) = List.map (fun i => n - (i + 1)) (List.range n) := by
    simp [Function.comp_def]
  rw [hmap, listRangeMapSum]
  have hcongr : ∑ i in Finset.range n, (n - (i + 1)) =
      ∑ i in Finset.range n, (n - 1 - i) := by
    refine Finset.sum_congr rfl fun i _ => by omega
  rw [hcongr, Finset.sum_range_reflect (fun j => j) n, Finset.sum_range_id]

/-- The diagonal-inclusive condensed matrix has `n(n+1)/2` entries. -/
theorem condensedMatrixDiag_length (n : Nat) (dist : Nat → Nat → ℚ) :
    (condensedMatrixDiag n dist).length = n * (n + 1) / 2 := by
  rw [condensedMatrixDiag, List.length_flatMap]
  have hmap : List.map
      (List.length ∘ fun i => ((List.range n).drop i).map fun j => dist i j)
      (List.range n) = List.map (fun i => n - i) (List.range n) := by
    simp [Function.comp_def]
  rw [hmap, listRangeMapSum]
  have hcongr : ∑ i in Finset.range n, (n - i) =
      ∑ i in Finset.range n, ((n - 1 - i) + 1) := by
    refine Finset.sum_congr rfl fun i hi => ?_
    have := Finset.mem_range.mp hi
    omega
  rw [hcongr, Finset.sum_add_distrib,
    Finset.sum_range_reflect (fun j => j) n, Finset.sum_range_id,
    Finset.sum_const, Finset.card_range, smul_eq_mul, mul_one]
  exact triangle_step n

/-- The recovery formula is exact on the diagonal-inclusive length:
for `n ≥ 1`, `int(sqrt(2 * (n(n+1)/2) + 1)) = n`. -/
theorem recoverSize_diag_length (n : Nat) (hn : 1 ≤ n) :
    recoverSize (n * (n + 1) / 2) = n := by
  have hdvd : 2 ∣ n * (n + 1) := (Nat.even_mul_succ_self n).two_dvd
  have h2 : 2 * (n * (n + 1) / 2) = n * (n + 1) := Nat.mul_div_cancel' hdvd
  unfold recoverSize
  rw [h2]
  symm
  rw [Nat.eq_sqrt]
  constructor
  · have h := Nat.mul_le_mul_left n (show n ≤ n + 1 by omega)
    omega
  · have h : (n + 1) * (n + 1) = n * (n + 1) + (n + 1) := by ring
    omega

/-- C8 counterexample: for a fitted sample set of size `n = 2`, the
spec's condensed layout has `1` entry, and the recovery formula of
`transform` applied to that length yields `int(sqrt(3)) = 1`, not `2` —
so the projection built from `size` would have one row, not one per
sample.  (The formula is exact for the diagonal-inclusive length
`n(n+1)/2` instead.) -/
theorem c8_counterexample :
    (condensedMatrixSpec 2 (fun _ _ => 1)).length = 1 ∧
      recoverSize (condensedMatrixSpec 2 (fun _ _ => 1)).length = 1 ∧
      (1 : Nat) ≠ 2 := by
  have hlen : (condensedMatrixSpec 2 (fun _ _ => 1)).length = 1 := by decide
  have hs : Nat.sqrt 3 = 1 := (Nat.eq_sqrt.mpr (by omega)).symm
  refine ⟨hlen, ?_, by omega⟩
  rw [hlen]
  show Nat.sqrt (2 * 1 + 1) = 1
  rw [show 2 * 1 + 1 = 3 by omega]
  exact hs

/-- C8 amended: for every sample set of size `n ≥ 1` and non-negative
metric, the condensed Distance Matrix stores `n(n+1)/2` non-negative
entries (diagonal slots included), and `transform` recovers the logical
sample count `n` from the matrix length alone via
`int(sqrt(2 * total + 1))`, so the projection it allocates has exactly
`n` rows. -/
theorem c8_amended_diag_layout_and_recovery (n : Nat)
    (dist : Nat → Nat → ℚ) (hn : 1 ≤ n)
    (hd : ∀ i j, 0 ≤ dist i j) :
    (condensedMatrixDiag n dist).length = n * (n + 1) / 2 ∧
      recoverSize (condensedMatrixDiag n dist).length = n ∧
      ∀ q ∈ condensedMatrixDiag n dist, 0 ≤ q := by
  refine ⟨condensedMatrixDiag_length n dist, ?_, ?_⟩
  · rw [condensedMatrixDiag_length n dist]
    exact recoverSize_diag_length n hn
  · intro q hq
    rw [condensedMatrixDiag, List.mem_flatMap] at hq
    obtain ⟨i, _, hq⟩ := hq
    rw [List.mem_map] at hq
    obtain ⟨j, _, rfl⟩ := hq
    exact hd i j

/-- C8 witness: with `n = 3` samples and the constant metric `2`, the
diagonal-inclusive matrix has `6` entries, the recovery formula returns
`3`, and every entry is non-negative. -/
theorem c8_witness :
    1 ≤ 3 ∧ (∀ i j : Nat, (0 : ℚ) ≤ (fun _ _ => (2 : ℚ)) i j) ∧
      ((condensedMatrixDiag 3 (fun _ _ => 2)).length = 3 * (3 + 1) / 2 ∧
        recoverSize (condensedMatrixDiag 3 (fun _ _ => 2)).length = 3 ∧
        ∀ q ∈ condensedMatrixDiag 3 (fun _ _ => 2), 0 ≤ q) :=
  ⟨by omega, fun _ _ => by norm_num,
    c8_amended_diag_layout_and_recovery 3 (fun _ _ => 2) (by omega)
      (fun _ _ => by norm_num)⟩
